import Mathlib

/-!
Verification of the marker-format loader and dictionary synthesizer of the
markerscanner repository.  The loader (`load_custom_markers`) parses a
line-oriented text format into a mapping from integer marker ids to 8×8
intensity grids; the encoder (`create_custom_dictionary`) strips the border
of each grid, inverts the polarity and writes the packed encoding into a
slot of a predefined 250-entry base dictionary.

The embedding models Python strings as `List Char`, the numpy `uint8`
array as a function `Fin 8 → Fin 8 → Nat`, Python exceptions
(`ValueError` from `int(...)`, `IndexError` from out-of-range numpy
indexing) as an `Except PyErr` result, and the Python `dict` as an
association list with insertion-order semantics.
-/

namespace MarkerScanner

/-- Python exceptions that the loader / encoder can raise:
`int(parts[0])` raises `ValueError`, an out-of-range numpy index raises
`IndexError`. -/
inductive PyErr : Type
  | valueError : PyErr
  | indexError : PyErr
  deriving DecidableEq, Repr

instance {ε α : Type} [DecidableEq ε] [DecidableEq α] : DecidableEq (Except ε α) := fun x y =>
  match x, y with
  | .ok a, .ok b =>
    match decEq a b with
    | .isTrue h => .isTrue (congrArg Except.ok h)
    | .isFalse h => .isFalse (fun hh => h (Except.ok.inj hh))
  | .error a, .error b =>
    match decEq a b with
    | .isTrue h => .isTrue (congrArg Except.error h)
    | .isFalse h => .isFalse (fun hh => h (Except.error.inj hh))
  | .ok _, .error _ => .isFalse (fun hh => Except.noConfusion hh)
  | .error _, .ok _ => .isFalse (fun hh => Except.noConfusion hh)

instance {α : Type} [DecidableEq α] : DecidableEq (Option α) := fun x y =>
  match x, y with
  | none, none => .isTrue rfl
  | some a, some b =>
    match decEq a b with
    | .isTrue h => .isTrue (congrArg some h)
    | .isFalse h => .isFalse (fun hh => h (Option.some.inj hh))
  | none, some _ => .isFalse (fun hh => Option.noConfusion hh)
  | some _, none => .isFalse (fun hh => Option.noConfusion hh)

/-- The 8×8 marker image grid (`marker_array` in the source), cells are
uint8 intensities: 255 for white, 0 for black. -/
abbrev Grid : Type := Fin 8 → Fin 8 → Nat

/-- The 6×6 bit matrix handed to the external packing primitive
(`inner_marker_bin` in the source). -/
abbrev BitMatrix : Type := Fin 6 → Fin 6 → Nat

/-- The result of `load_custom_markers`: a Python `dict` from marker id to
grid, modelled as an association list in insertion order. -/
abbrev MarkerSet : Type := List (Int × Grid)

/-- A 250-slot dictionary of entries of type `E` (the `bytesList` of the
predefined `DICT_6X6_250` base dictionary). -/
abbrev Dict (E : Type) : Type := Fin 250 → E

/-- Characters treated as whitespace by Python `str.strip()` and
`str.split()`. -/
def isPySpace (c : Char) : Bool :=
  c == ' ' || c == '\t' || c == '\n' || c == '\r' || c == '\x0b' || c == '\x0c'

/-- Python `str.strip()`: remove leading and trailing whitespace. -/
def pyStrip (s : List Char) : List Char :=
  ((s.dropWhile isPySpace).reverse.dropWhile isPySpace).reverse

/-- Python `str.startswith('#')`. -/
def startsWithHash (s : List Char) : Bool :=
  match s with
  | '#' :: _ => true
  | _ => false

/-- Helper for `splitColonSpace`: accumulates the current part (reversed)
while scanning for the next occurrence of the two-character separator. -/
def splitCSAux : List Char → List Char → List (List Char)
  | acc, [] => [acc.reverse]
  | acc, ':' :: ' ' :: rest => acc.reverse :: splitCSAux [] rest
  | acc, c :: rest => splitCSAux (c :: acc) rest

/-- Python `str.split(': ')`: split on the literal two-character separator,
left to right, non-overlapping. -/
def splitColonSpace (s : List Char) : List (List Char) :=
  splitCSAux [] s

/-- Helper for `pySplitWs`: accumulates the current token (reversed). -/
def splitWsAux : List Char → List Char → List (List Char)
  | acc, [] => if acc = [] then [] else [acc.reverse]
  | acc, c :: rest =>
    if isPySpace c then
      if acc = [] then splitWsAux [] rest else acc.reverse :: splitWsAux [] rest
    else splitWsAux (c :: acc) rest

/-- Python `str.split()` with no argument: split on runs of whitespace,
discarding empty tokens. -/
def pySplitWs (s : List Char) : List (List Char) :=
  splitWsAux [] s

/-- Digit-sequence part of Python `int(str)` after an optional sign:
decimal digits where a single underscore may stand between two digits. -/
def digitsCore : Nat → List Char → Option Nat
  | acc, [] => some acc
  | _, ['_'] => none
  | acc, '_' :: c :: rest =>
    if c.isDigit then digitsCore (acc * 10 + (c.toNat - 48)) rest else none
  | acc, c :: rest =>
    if c.isDigit then digitsCore (acc * 10 + (c.toNat - 48)) rest else none

/-- Parse a nonempty digit sequence (first character must be a digit). -/
def parseDigits : List Char → Option Nat
  | [] => none
  | c :: rest => if c.isDigit then digitsCore (c.toNat - 48) rest else none

/-- Python `int(str)`: strip whitespace, optional sign, digit sequence.
Returns `none` where Python raises `ValueError`. -/
def pyInt (s : List Char) : Option Int :=
  match pyStrip s with
  | '+' :: rest => (parseDigits rest).map (fun n => (n : Int))
  | '-' :: rest => (parseDigits rest).map (fun n => -(n : Int))
  | rest => (parseDigits rest).map (fun n => (n : Int))

/-- The intensity written for one character of a row token:
`marker_array[i, j] = 255 if bit == '0' else 0`. -/
def cellVal (c : Char) : Nat :=
  if c = '0' then 255 else 0

/-- `np.zeros((8, 8))`: the freshly allocated grid, all cells 0. -/
def zeroGrid : Grid := fun _ _ => 0

/-- A single numpy store `marker_array[i, j] = v`; raises `IndexError`
when the (non-negative) index is out of range. -/
def writeCell (g : Grid) (i j : Nat) (v : Nat) : Except PyErr Grid :=
  if hi : i < 8 then
    if hj : j < 8 then
      .ok (fun a b => if a = ⟨i, hi⟩ ∧ b = ⟨j, hj⟩ then v else g a b)
    else .error .indexError
  else .error .indexError

/-- The inner loop `for j, bit in enumerate(row)` writing one row token
into row `i` starting at column `j`. -/
def writeRowCells (g : Grid) (i j : Nat) : List Char → Except PyErr Grid
  | [] => .ok g
  | c :: rest =>
    match writeCell g i j (cellVal c) with
    | .error e => .error e
    | .ok g' => writeRowCells g' i (j + 1) rest

/-- The outer loop `for i, row in enumerate(binary_rows)`. -/
def buildGridAux (g : Grid) (i : Nat) : List (List Char) → Except PyErr Grid
  | [] => .ok g
  | r :: rest =>
    match writeRowCells g i 0 r with
    | .error e => .error e
    | .ok g' => buildGridAux g' (i + 1) rest

/-- Build the 8×8 grid from the whitespace-split row tokens, starting from
`np.zeros((8, 8))`. -/
def buildGrid (rows : List (List Char)) : Except PyErr Grid :=
  buildGridAux zeroGrid 0 rows

/-- Python `dict` assignment `markers[k] = g`: an existing key keeps its
position and gets the new value, a new key is appended. -/
def dictInsert (m : MarkerSet) (k : Int) (g : Grid) : MarkerSet :=
  if m.any (fun p => p.1 == k) then
    m.map (fun p => if p.1 == k then (k, g) else p)
  else m ++ [(k, g)]

/-- Look up a key in a `MarkerSet` (first match). -/
def dictGet (m : MarkerSet) (k : Int) : Option Grid :=
  (m.find? (fun p => p.1 == k)).map Prod.snd

/-- Processing of one line of the markers file, up to (but not including)
the `dict` insertion: `none` for a skipped line, `some (id, grid)` for a
parsed data line, an error where the Python code raises. -/
def lineStep (line : List Char) : Except PyErr (Option (Int × Grid)) :=
  if startsWithHash line = true ∨ pyStrip line = [] then .ok none
  else
    match splitColonSpace (pyStrip line) with
    | [p0, p1] =>
      match pyInt p0 with
      | none => .error .valueError
      | some id =>
        match buildGrid (pySplitWs p1) with
        | .error e => .error e
        | .ok g => .ok (some (id, g))
    | _ => .ok none

/-- One iteration of the `for line in f` loop of `load_custom_markers`. -/
def processLine (m : MarkerSet) (line : List Char) : Except PyErr MarkerSet :=
  match lineStep line with
  | .error e => .error e
  | .ok none => .ok m
  | .ok (some (id, g)) => .ok (dictInsert m id g)

/-- The loop of `load_custom_markers` over the remaining lines. -/
def loadAux (m : MarkerSet) : List (List Char) → Except PyErr MarkerSet
  | [] => .ok m
  | l :: rest =>
    match processLine m l with
    | .error e => .error e
    | .ok m' => loadAux m' rest

/-- `load_custom_markers`: parse the lines of a markers file into a
mapping from marker id to 8×8 grid. -/
def load_custom_markers (lines : List (List Char)) : Except PyErr MarkerSet :=
  loadAux [] lines

/-- The id of the marker a line contributes, if any. -/
def lineId (line : List Char) : Option Int :=
  match lineStep line with
  | .ok (some (id, _)) => some id
  | _ => none

/-- `inner_marker = marker_array[1:7, 1:7]`: the inner 6×6 submatrix of
the 8×8 grid with the outer border removed. -/
def innerMarker (g : Grid) : Fin 6 → Fin 6 → Nat :=
  fun i j => g ⟨i.val + 1, by have := i.isLt; omega⟩ ⟨j.val + 1, by have := j.isLt; omega⟩

/-- `inner_marker_bin[i, j] = 0 if inner_marker[i, j] == 255 else 1`:
the bit matrix handed to `getByteListFromBits`. -/
def innerMarkerBin (g : Grid) : BitMatrix :=
  fun i j => if innerMarker g i j = 255 then 0 else 1

/-- Functional update of one dictionary slot. -/
def updateFin {E : Type} (d : Dict E) (k : Fin 250) (e : E) : Dict E :=
  fun x => if x = k then e else d x

/-- The numpy store `dictionary.bytesList[marker_id] = bytes_marker`:
a non-negative index below 250 writes that slot, an index in `[-250, 0)`
wraps (Python negative indexing) and writes slot `id + 250`, any other
index raises `IndexError`. -/
def writeSlot {E : Type} (d : Dict E) (id : Int) (e : E) : Except PyErr (Dict E) :=
  if h : 0 ≤ id ∧ id < 250 then
    .ok (updateFin d ⟨id.toNat, by omega⟩ e)
  else if h2 : -250 ≤ id ∧ id < 0 then
    .ok (updateFin d ⟨(id + 250).toNat, by omega⟩ e)
  else .error .indexError

/-- The loop of `create_custom_dictionary` over `markers.items()`:
markers with `marker_id < 250` have their inner bit matrix packed (by the
external primitive `pack`) and stored at slot `marker_id`. -/
def createAux {E : Type} (pack : BitMatrix → E) (d : Dict E) :
    MarkerSet → Except PyErr (Dict E)
  | [] => .ok d
  | p :: rest =>
    if p.1 < 250 then
      match writeSlot d p.1 (pack (innerMarkerBin p.2)) with
      | .error e => .error e
      | .ok d' => createAux pack d' rest
    else createAux pack d rest

/-- `create_custom_dictionary`: overwrite slots of the predefined base
dictionary `base` with the packed encodings of the custom markers.  The
external packing primitive `cv2.aruco.Dictionary.getByteListFromBits` and
the base dictionary contents are parameters (`pack`, `base`). -/
def create_custom_dictionary {E : Type} (pack : BitMatrix → E) (base : Dict E)
    (markers : MarkerSet) : Except PyErr (Dict E) :=
  createAux pack base markers

/-- The bit matrix of an encoded marker as the specification words it:
the inner submatrix of the 8×8 grid at rows 1..6 and columns 1..6
(zero-indexed, outer border removed), each cell mapped to bit 0 when the
source cell equals the white intensity 255 and to bit 1 otherwise. -/
def specEncodedBits (g : Grid) : BitMatrix :=
  fun i j =>
    if g ⟨i.val + 1, by have := i.isLt; omega⟩ ⟨j.val + 1, by have := j.isLt; omega⟩ = 255
    then 0 else 1

/-- The keys of a `MarkerSet` are pairwise distinct (the Python `dict`
invariant). -/
abbrev nodupKeys (m : MarkerSet) : Prop :=
  (m.map Prod.fst).Nodup

/-- Re-serialization of a grid back to the row-token format, writing '0'
for a white cell and '1' for a black cell. -/
def serializeGrid (g : Grid) : List (List Char) :=
  List.ofFn (fun i : Fin 8 => List.ofFn (fun j : Fin 8 => if g i j = 255 then '0' else '1'))

/-- The cell of the marker stored under key `k`, if the load succeeded and
the key is present. -/
def cellAt (r : Except PyErr MarkerSet) (k : Int) (i j : Fin 8) : Option Nat :=
  match r with
  | .ok m => (dictGet m k).map (fun g => g i j)
  | .error _ => none

/-- The keys of a load result (empty on error). -/
def keysOf (r : Except PyErr MarkerSet) : List Int :=
  match r with
  | .ok m => m.map Prod.fst
  | .error _ => []

/-! ### Concrete inputs used as witnesses and counterexamples -/

/-- A packing primitive instance mapping every bit matrix to `1`. -/
def packOne : BitMatrix → Nat := fun _ => 1

/-- A base dictionary instance with every slot `0`. -/
def baseZero : Dict Nat := fun _ => 0

/-- The all-zero bit matrix. -/
def zeroBits : BitMatrix := fun _ _ => 0

/-- A base dictionary of bit matrices, all slots zero. -/
def baseBits : Dict BitMatrix := fun _ => zeroBits

/-- The dictionary obtained by overwriting slot 3 of `baseBits` with the
encoding of the all-black grid. -/
def dSlot3 : Dict BitMatrix := updateFin baseBits ⟨3, by omega⟩ (innerMarkerBin zeroGrid)

def lineAbc : List Char := "abc: 0".data

def lineNoColon : List Char := "24 00000000".data

def lineSeven : List Char := "7: 0".data

def lineShort : List Char := "5: 0000".data

def lineLong : List Char := "0: 000000000".data

def lineNeg : List Char := "-1: 0".data

def lineNine : List Char := "1: 0 0 0 0 0 0 0 0 0".data

def lineA1 : List Char := "1: 0".data

def lineB1 : List Char := "1: 00".data

def tokAbc : List Char := "abc".data

def tokOne : List Char := "1".data

def p1Nine : List Char := "0 0 0 0 0 0 0 0 0".data

def tokZero : List Char := "0".data

def tok4 : List Char := "0000".data

def tok8 : List Char := List.replicate 8 '0'

def tok9 : List Char := List.replicate 9 '0'

def rows8 : List (List Char) := List.replicate 8 tok8

def p1Eight : List Char :=
  "00000000 00000000 00000000 00000000 00000000 00000000 00000000 00000000".data

/-- The grid parsed from a data line whose single row token is `0000`. -/
def gC5 : Grid := fun i j => if i.val = 0 ∧ j.val < 4 then 255 else 0

/-- The grid parsed from a data line whose single row token is `0`. -/
def gOne : Grid := fun i j => if i.val = 0 ∧ j.val = 0 then 255 else 0

/-- The grid parsed from a data line whose single row token is `00`. -/
def gTwo : Grid := fun i j => if i.val = 0 ∧ j.val ≤ 1 then 255 else 0

/-- The marker set parsed from `lineSeven`. -/
def mSeven : MarkerSet := [(7, gOne)]

/-! ### Lemmas about the grid construction -/

theorem writeCell_ok (g : Grid) (i j v : Nat) (hi : i < 8) (hj : j < 8) :
    writeCell g i j v =
      .ok (fun a b => if a = ⟨i, hi⟩ ∧ b = ⟨j, hj⟩ then v else g a b) := by
  unfold writeCell
  rw [dif_pos hi, dif_pos hj]

theorem writeCell_err (g : Grid) (i j v : Nat) (h : 8 ≤ i ∨ 8 ≤ j) :
    writeCell g i j v = .error .indexError := by
  unfold writeCell
  split
  · split
    · exact ((by omega : False)).elim
    · rfl
  · rfl

theorem writeRowCells_cell (cs : List Char) :
    ∀ (g g' : Grid) (i0 j0 : Nat), writeRowCells g i0 j0 cs = .ok g' →
    ∀ a b : Fin 8, g' a b =
      if a.val = i0 ∧ j0 ≤ b.val ∧ b.val < j0 + cs.length
      then cellVal (cs.getD (b.val - j0) 'A')
      else g a b := by
  induction cs with
  | nil =>
    intro g g' i0 j0 h a b
    injection h with h
    subst h
    rw [if_neg]
    rintro ⟨-, h2, h3⟩
    simp only [List.length_nil, Nat.add_zero] at h3
    omega
  | cons c rest ih =>
    intro g g' i0 j0 h a b
    unfold writeRowCells at h
    by_cases hi : i0 < 8
    · by_cases hj : j0 < 8
      · rw [writeCell_ok g i0 j0 (cellVal c) hi hj] at h
        have hrec := ih _ _ i0 (j0 + 1) h a b
        rw [hrec]
        simp only [Fin.ext_iff, List.length_cons]
        by_cases ha : a.val = i0
        · rcases Nat.lt_trichotomy b.val j0 with hb | hb | hb
          · rw [if_neg (by rintro ⟨-, h2, -⟩; omega),
              if_neg (by rintro ⟨-, h2⟩; omega),
              if_neg (by rintro ⟨-, h2, -⟩; omega)]
          · rw [if_neg (by rintro ⟨-, h2, -⟩; omega),
              if_pos ⟨ha, hb⟩,
              if_pos ⟨ha, by omega, by omega⟩]
            have h0 : b.val - j0 = 0 := by omega
            rw [h0, List.getD_cons_zero]
          · by_cases hin : b.val < j0 + 1 + rest.length
            · rw [if_pos ⟨ha, by omega, hin⟩, if_pos ⟨ha, by omega, by omega⟩]
              have hsub : b.val - j0 = (b.val - (j0 + 1)) + 1 := by omega
              rw [hsub, List.getD_cons_succ]
            · rw [if_neg (by rintro ⟨-, -, h3⟩; omega),
                if_neg (by rintro ⟨-, h2⟩; omega),
                if_neg (by rintro ⟨-, -, h3⟩; omega)]
        · rw [if_neg (by rintro ⟨h1, -⟩; exact ha h1),
            if_neg (by rintro ⟨h1, -⟩; exact ha h1),
            if_neg (by rintro ⟨h1, -⟩; exact ha h1)]
      · rw [writeCell_err g i0 j0 (cellVal c) (Or.inr (by omega))] at h
        exact Except.noConfusion h
    · rw [writeCell_err g i0 j0 (cellVal c) (Or.inl (by omega))] at h
      exact Except.noConfusion h

theorem writeRowCells_ok (cs : List Char) :
    ∀ (g : Grid) (i0 j0 : Nat), i0 < 8 → j0 + cs.length ≤ 8 →
    ∃ g', writeRowCells g i0 j0 cs = .ok g' := by
  induction cs with
  | nil => exact fun g i0 j0 _ _ => ⟨g, rfl⟩
  | cons c rest ih =>
    intro g i0 j0 hi hl
    simp only [List.length_cons] at hl
    unfold writeRowCells
    rw [writeCell_ok g i0 j0 (cellVal c) hi (by omega)]
    exact ih _ i0 (j0 + 1) hi (by omega)

theorem writeRowCells_err (cs : List Char) :
    ∀ (g : Grid) (i0 j0 : Nat), cs ≠ [] → (8 ≤ i0 ∨ 8 < j0 + cs.length) →
    writeRowCells g i0 j0 cs = .error .indexError := by
  induction cs with
  | nil => intro g i0 j0 h _; exact absurd rfl h
  | cons c rest ih =>
    intro g i0 j0 _ hbad
    unfold writeRowCells
    by_cases hi : i0 < 8
    · by_cases hj : j0 < 8
      · rw [writeCell_ok g i0 j0 (cellVal c) hi hj]
        have hrest : rest ≠ [] := by
          intro he
          subst he
          rcases hbad with h | h
          · omega
          · simp only [List.length_cons, List.length_nil] at h; omega
        refine ih _ i0 (j0 + 1) hrest (Or.inr ?_)
        rcases hbad with h | h
        · omega
        · simp only [List.length_cons] at h; omega
      · rw [writeCell_err g i0 j0 (cellVal c) (Or.inr (by omega))]
    · rw [writeCell_err g i0 j0 (cellVal c) (Or.inl (by omega))]

theorem writeRowCells_not_value (cs : List Char) :
    ∀ (g : Grid) (i0 j0 : Nat), writeRowCells g i0 j0 cs ≠ .error .valueError := by
  induction cs with
  | nil => intro g i0 j0 h; exact Except.noConfusion h
  | cons c rest ih =>
    intro g i0 j0 h
    unfold writeRowCells at h
    by_cases hi : i0 < 8
    · by_cases hj : j0 < 8
      · rw [writeCell_ok g i0 j0 (cellVal c) hi hj] at h
        exact ih _ i0 (j0 + 1) h
      · rw [writeCell_err g i0 j0 (cellVal c) (Or.inr (by omega))] at h
        injection h with h
        exact PyErr.noConfusion h
    · rw [writeCell_err g i0 j0 (cellVal c) (Or.inl (by omega))] at h
      injection h with h
      exact PyErr.noConfusion h

theorem buildGridAux_cell (rows : List (List Char)) :
    ∀ (g g' : Grid) (i0 : Nat), buildGridAux g i0 rows = .ok g' →
    ∀ a b : Fin 8, g' a b =
      if i0 ≤ a.val ∧ a.val < i0 + rows.length ∧ b.val < (rows.getD (a.val - i0) []).length
      then cellVal ((rows.getD (a.val - i0) []).getD b.val 'A')
      else g a b := by
  induction rows with
  | nil =>
    intro g g' i0 h a b
    injection h with h
    subst h
    rw [if_neg]
    rintro ⟨h1, h2, -⟩
    simp only [List.length_nil, Nat.add_zero] at h2
    omega
  | cons r rest ih =>
    intro g g' i0 h a b
    unfold buildGridAux at h
    cases hw : writeRowCells g i0 0 r with
    | error e => rw [hw] at h; exact Except.noConfusion h
    | ok g1 =>
      rw [hw] at h
      have h1 := writeRowCells_cell r g g1 i0 0 hw a b
      simp only [Nat.zero_le, true_and, Nat.zero_add, Nat.sub_zero] at h1
      have hrec := ih g1 g' (i0 + 1) h a b
      rw [hrec, h1]
      simp only [List.length_cons]
      rcases Nat.lt_trichotomy a.val i0 with ha | ha | ha
      · rw [if_neg (by rintro ⟨h1, -⟩; omega),
          if_neg (by rintro ⟨h1, -⟩; omega),
          if_neg (by rintro ⟨h1, -⟩; omega)]
      · have h0 : a.val - i0 = 0 := by omega
        rw [if_neg (by rintro ⟨h1, -⟩; omega), h0, List.getD_cons_zero]
        by_cases hb : b.val < r.length
        · rw [if_pos ⟨ha, hb⟩, if_pos ⟨by omega, by omega, hb⟩]
        · rw [if_neg (by rintro ⟨-, h2⟩; omega), if_neg (by rintro ⟨-, -, h3⟩; omega)]
      · have hsub : a.val - i0 = (a.val - (i0 + 1)) + 1 := by omega
        rw [hsub, List.getD_cons_succ]
        by_cases hc : a.val < i0 + 1 + rest.length ∧
            b.val < (rest.getD (a.val - (i0 + 1)) []).length
        · rw [if_pos (show i0 + 1 ≤ a.val ∧ a.val < i0 + 1 + rest.length ∧
              b.val < (rest.getD (a.val - (i0 + 1)) []).length from ⟨by omega, hc.1, hc.2⟩),
            if_pos (show i0 ≤ a.val ∧ a.val < i0 + (rest.length + 1) ∧
              b.val < (rest.getD (a.val - (i0 + 1)) []).length from ⟨by omega, by omega, hc.2⟩)]
        · rw [if_neg (show ¬(i0 + 1 ≤ a.val ∧ a.val < i0 + 1 + rest.length ∧
              b.val < (rest.getD (a.val - (i0 + 1)) []).length) by
                rintro ⟨-, h2, h3⟩; exact hc ⟨h2, h3⟩),
            if_neg (show ¬(a.val = i0 ∧ b.val < r.length) by rintro ⟨h1, -⟩; omega),
            if_neg (show ¬(i0 ≤ a.val ∧ a.val < i0 + (rest.length + 1) ∧
              b.val < (rest.getD (a.val - (i0 + 1)) []).length) by
                rintro ⟨-, h2, h3⟩; exact hc ⟨by omega, h3⟩)]

theorem buildGrid_cell (rows : List (List Char)) (g : Grid)
    (h : buildGrid rows = .ok g) (a b : Fin 8) :
    g a b =
      if a.val < rows.length ∧ b.val < (rows.getD a.val []).length
      then cellVal ((rows.getD a.val []).getD b.val 'A')
      else 0 := by
  have hc := buildGridAux_cell rows zeroGrid g 0 h a b
  simpa [zeroGrid] using hc

theorem buildGridAux_ok (rows : List (List Char)) :
    ∀ (g : Grid) (i0 : Nat), i0 + rows.length ≤ 8 → (∀ t ∈ rows, t.length ≤ 8) →
    ∃ g', buildGridAux g i0 rows = .ok g' := by
  induction rows with
  | nil => exact fun g i0 _ _ => ⟨g, rfl⟩
  | cons r rest ih =>
    intro g i0 hlen htok
    simp only [List.length_cons] at hlen
    have hi : i0 < 8 := by omega
    have hr8 : r.length ≤ 8 := htok r (by simp)
    obtain ⟨g1, hg1⟩ := writeRowCells_ok r g i0 0 hi (by omega)
    unfold buildGridAux
    rw [hg1]
    exact ih g1 (i0 + 1) (by omega) (fun t ht => htok t (by simp [ht]))

theorem buildGridAux_err_long (rows : List (List Char)) :
    ∀ (g : Grid) (i0 : Nat), (∃ t ∈ rows.take (8 - i0), 8 < t.length) →
    buildGridAux g i0 rows = .error .indexError := by
  induction rows with
  | nil =>
    intro g i0 h
    obtain ⟨t, ht, -⟩ := h
    simp at ht
  | cons r rest ih =>
    intro g i0 h
    obtain ⟨t, ht, hlen⟩ := h
    have hi0 : i0 < 8 := by
      by_contra hge
      have h0 : 8 - i0 = 0 := by omega
      rw [h0, List.take_zero] at ht
      simp at ht
    unfold buildGridAux
    by_cases hr : 8 < r.length
    · rw [writeRowCells_err r g i0 0 (by intro he; rw [he] at hr; simp at hr)
        (Or.inr (by omega))]
    · obtain ⟨g1, hg1⟩ := writeRowCells_ok r g i0 0 hi0 (by omega)
      rw [hg1]
      apply ih g1 (i0 + 1)
      refine ⟨t, ?_, hlen⟩
      have htake : 8 - i0 = (8 - (i0 + 1)) + 1 := by omega
      rw [htake, List.take_succ_cons] at ht
      rcases List.mem_cons.mp ht with ht | ht
      · subst ht; omega
      · exact ht

theorem buildGridAux_err_many (rows : List (List Char)) :
    ∀ (g : Grid) (i0 : Nat), i0 ≤ 8 → 8 < i0 + rows.length → (∀ t ∈ rows, t ≠ []) →
    buildGridAux g i0 rows = .error .indexError := by
  induction rows with
  | nil =>
    intro g i0 hle hlen _
    simp only [List.length_nil, Nat.add_zero] at hlen
    omega
  | cons r rest ih =>
    intro g i0 hle hlen htok
    have hr_ne : r ≠ [] := htok r (by simp)
    simp only [List.length_cons] at hlen
    unfold buildGridAux
    by_cases hi : i0 < 8
    · by_cases hr : 8 < r.length
      · rw [writeRowCells_err r g i0 0 hr_ne (Or.inr (by omega))]
      · obtain ⟨g1, hg1⟩ := writeRowCells_ok r g i0 0 hi (by omega)
        rw [hg1]
        exact ih g1 (i0 + 1) (by omega) (by omega) (fun t ht => htok t (by simp [ht]))
    · rw [writeRowCells_err r g i0 0 hr_ne (Or.inl (by omega))]

theorem buildGridAux_not_value (rows : List (List Char)) :
    ∀ (g : Grid) (i0 : Nat), buildGridAux g i0 rows ≠ .error .valueError := by
  induction rows with
  | nil => intro g i0 h; exact Except.noConfusion h
  | cons r rest ih =>
    intro g i0 h
    unfold buildGridAux at h
    cases hw : writeRowCells g i0 0 r with
    | error e =>
      rw [hw] at h
      injection h with h
      subst h
      exact writeRowCells_not_value r g i0 0 hw
    | ok g1 =>
      rw [hw] at h
      exact ih g1 (i0 + 1) h

/-! ### Lemmas about the dict model -/

theorem find?_map_insert (m : MarkerSet) (k : Int) (g : Grid) :
    m.any (fun p => p.1 == k) = true →
    (m.map (fun p => if p.1 == k then (k, g) else p)).find? (fun p => p.1 == k)
      = some (k, g) := by
  induction m with
  | nil => intro h; simp at h
  | cons p rest ih =>
    intro h
    simp only [List.map_cons]
    by_cases hp : (p.1 == k) = true
    · rw [if_pos hp]
      simp [List.find?_cons]
    · have hp' : (p.1 == k) = false := by rw [← Bool.not_eq_true]; exact hp
      rw [if_neg hp]
      simp only [List.find?_cons, hp']
      apply ih
      simp only [List.any_cons, hp', Bool.false_or] at h
      exact h

theorem find?_append_single (m : MarkerSet) (k : Int) (g : Grid) :
    m.any (fun p => p.1 == k) = false →
    (m ++ [(k, g)]).find? (fun p => p.1 == k) = some (k, g) := by
  induction m with
  | nil =>
    intro _
    simp [List.find?_cons]
  | cons p rest ih =>
    intro h
    simp only [List.any_cons, Bool.or_eq_false_iff] at h
    rw [List.cons_append]
    simp only [List.find?_cons, h.1]
    exact ih h.2

theorem dictGet_insert_same (m : MarkerSet) (k : Int) (g : Grid) :
    dictGet (dictInsert m k g) k = some g := by
  unfold dictInsert dictGet
  by_cases h : m.any (fun p => p.1 == k)
  · rw [if_pos h, find?_map_insert m k g h]
    rfl
  · rw [if_neg h, find?_append_single m k g (by rw [← Bool.not_eq_true]; exact h)]
    rfl

theorem find?_map_insert_other (m : MarkerSet) (k : Int) (g : Grid) (x : Int)
    (hne : x ≠ k) :
    (m.map (fun p => if p.1 == k then (k, g) else p)).find? (fun p => p.1 == x)
      = m.find? (fun p => p.1 == x) := by
  induction m with
  | nil => rfl
  | cons p rest ih =>
    simp only [List.map_cons]
    by_cases hp : (p.1 == k) = true
    · have hpk : p.1 = k := by simpa using hp
      have h1 : ((k, g).1 == x) = false := by simp [hne.symm]
      have h2 : (p.1 == x) = false := by simp [hpk, hne.symm]
      rw [if_pos hp]
      simp only [List.find?_cons, h1, h2]
      exact ih
    · rw [if_neg hp]
      cases hpred : (p.1 == x) with
      | true => simp only [List.find?_cons, hpred]
      | false =>
        simp only [List.find?_cons, hpred]
        exact ih

theorem find?_append_single_other (m : MarkerSet) (k : Int) (g : Grid) (x : Int)
    (hne : x ≠ k) :
    (m ++ [(k, g)]).find? (fun p => p.1 == x) = m.find? (fun p => p.1 == x) := by
  induction m with
  | nil =>
    have h1 : ((k, g).1 == x) = false := by simp [hne.symm]
    rw [List.nil_append]
    simp only [List.find?_cons, h1]
  | cons p rest ih =>
    rw [List.cons_append]
    cases hpred : (p.1 == x) with
    | true => simp only [List.find?_cons, hpred]
    | false =>
      simp only [List.find?_cons, hpred]
      exact ih

theorem dictGet_insert_other (m : MarkerSet) (k : Int) (g : Grid) (x : Int)
    (hne : x ≠ k) : dictGet (dictInsert m k g) x = dictGet m x := by
  unfold dictInsert dictGet
  by_cases h : m.any (fun p => p.1 == k)
  · rw [if_pos h, find?_map_insert_other m k g x hne]
  · rw [if_neg h, find?_append_single_other m k g x hne]

theorem keys_insert (m : MarkerSet) (k : Int) (g : Grid) (x : Int) :
    x ∈ (dictInsert m k g).map Prod.fst → x = k ∨ x ∈ m.map Prod.fst := by
  intro hx
  unfold dictInsert at hx
  by_cases h : m.any (fun p => p.1 == k)
  · rw [if_pos h, List.map_map] at hx
    obtain ⟨p, hp, hfx⟩ := List.mem_map.mp hx
    by_cases hpk : p.1 == k
    · left
      rw [← hfx]
      simp [Function.comp, hpk]
    · right
      rw [← hfx]
      simp only [Function.comp, if_neg hpk]
      exact List.mem_map_of_mem _ hp
  · rw [if_neg h, List.map_append] at hx
    rcases List.mem_append.mp hx with hx | hx
    · right; exact hx
    · left; simpa using hx

/-! ### Lemmas about the load loop -/

theorem loadAux_cons (m0 : MarkerSet) (l : List Char) (rest : List (List Char)) :
    loadAux m0 (l :: rest) =
      match processLine m0 l with
      | .error e => .error e
      | .ok m' => loadAux m' rest := rfl

theorem processLine_eq (m : MarkerSet) (l : List Char) :
    processLine m l =
      match lineStep l with
      | .error e => .error e
      | .ok none => .ok m
      | .ok (some (id, g)) => .ok (dictInsert m id g) := rfl

theorem loadAux_append (xs ys : List (List Char)) :
    ∀ m0, loadAux m0 (xs ++ ys) =
      match loadAux m0 xs with
      | .error e => .error e
      | .ok m => loadAux m ys := by
  induction xs with
  | nil => intro m0; rfl
  | cons l rest ih =>
    intro m0
    rw [List.cons_append, loadAux_cons, loadAux_cons]
    cases hp : processLine m0 l with
    | error e => rfl
    | ok m1 => exact ih m1

theorem loadAux_ok (lines : List (List Char)) :
    ∀ m0, (∀ l ∈ lines, ∃ r, lineStep l = .ok r) →
    ∃ m, loadAux m0 lines = .ok m := by
  induction lines with
  | nil => exact fun m0 _ => ⟨m0, rfl⟩
  | cons l rest ih =>
    intro m0 h
    obtain ⟨r, hr⟩ := h l (by simp)
    rw [loadAux_cons, processLine_eq, hr]
    cases r with
    | none => exact ih m0 (fun l' hl' => h l' (by simp [hl']))
    | some p =>
      obtain ⟨id, g⟩ := p
      exact ih _ (fun l' hl' => h l' (by simp [hl']))

theorem loadAux_err_of_mem (lines : List (List Char)) :
    ∀ m0 l, l ∈ lines → lineStep l = .error .indexError →
    (∀ l' ∈ lines, lineStep l' ≠ .error .valueError) →
    loadAux m0 lines = .error .indexError := by
  induction lines with
  | nil => intro m0 l hl _ _; simp at hl
  | cons x rest ih =>
    intro m0 l hl herr hnv
    rw [loadAux_cons, processLine_eq]
    cases hx : lineStep x with
    | error e =>
      cases e with
      | valueError => exact absurd hx (hnv x (by simp))
      | indexError => rfl
    | ok r =>
      have hlr : l ∈ rest := by
        rcases List.mem_cons.mp hl with h | h
        · subst h; rw [hx] at herr; exact Except.noConfusion herr
        · exact h
      cases r with
      | none => exact ih m0 l hlr herr (fun l' hl' => hnv l' (by simp [hl']))
      | some p =>
        obtain ⟨id, g⟩ := p
        exact ih _ l hlr herr (fun l' hl' => hnv l' (by simp [hl']))

theorem loadAux_err_source (lines : List (List Char)) :
    ∀ m0 e, loadAux m0 lines = .error e → ∃ l ∈ lines, lineStep l = .error e := by
  induction lines with
  | nil => intro m0 e h; exact Except.noConfusion h
  | cons x rest ih =>
    intro m0 e h
    rw [loadAux_cons, processLine_eq] at h
    cases hx : lineStep x with
    | error e' =>
      rw [hx] at h
      injection h with h
      exact ⟨x, by simp, by rw [hx, h]⟩
    | ok r =>
      rw [hx] at h
      cases r with
      | none =>
        obtain ⟨l, hl, hstep⟩ := ih m0 e h
        exact ⟨l, by simp [hl], hstep⟩
      | some p =>
        obtain ⟨id, g⟩ := p
        obtain ⟨l, hl, hstep⟩ := ih _ e h
        exact ⟨l, by simp [hl], hstep⟩

theorem loadAux_ok_source (lines : List (List Char)) :
    ∀ m0 m, loadAux m0 lines = .ok m → ∀ l ∈ lines, ∃ r, lineStep l = .ok r := by
  induction lines with
  | nil => intro m0 m _ l hl; simp at hl
  | cons x rest ih =>
    intro m0 m h l hl
    rw [loadAux_cons, processLine_eq] at h
    cases hx : lineStep x with
    | error e => rw [hx] at h; exact Except.noConfusion h
    | ok r =>
      rw [hx] at h
      rcases List.mem_cons.mp hl with heq | hlr
      · exact ⟨r, by rw [heq, hx]⟩
      · cases r with
        | none => exact ih m0 m h l hlr
        | some p =>
          obtain ⟨id, g⟩ := p
          exact ih _ m h l hlr

theorem loadAux_get_frozen (lines : List (List Char)) :
    ∀ m0 m id, loadAux m0 lines = .ok m →
    (∀ l ∈ lines, ∀ g, lineStep l ≠ .ok (some (id, g))) →
    dictGet m id = dictGet m0 id := by
  induction lines with
  | nil =>
    intro m0 m id h _
    injection h with h
    rw [h]
  | cons x rest ih =>
    intro m0 m id h hfroz
    rw [loadAux_cons, processLine_eq] at h
    cases hx : lineStep x with
    | error e => rw [hx] at h; exact Except.noConfusion h
    | ok r =>
      rw [hx] at h
      cases r with
      | none => exact ih m0 m id h (fun l' hl' => hfroz l' (by simp [hl']))
      | some p =>
        obtain ⟨id', g'⟩ := p
        have hne : id ≠ id' := by
          intro he
          exact (hfroz x (by simp) g') (by rw [hx, he])
        rw [ih _ m id h (fun l' hl' => hfroz l' (by simp [hl'])),
          dictGet_insert_other m0 id' g' id hne]

theorem loadAux_keys (lines : List (List Char)) :
    ∀ m0 m, loadAux m0 lines = .ok m →
    ∀ k ∈ m.map Prod.fst, k ∈ m0.map Prod.fst ∨ ∃ l ∈ lines, lineId l = some k := by
  induction lines with
  | nil =>
    intro m0 m h k hk
    injection h with h
    rw [← h] at hk
    exact Or.inl hk
  | cons x rest ih =>
    intro m0 m h k hk
    rw [loadAux_cons, processLine_eq] at h
    cases hx : lineStep x with
    | error e => rw [hx] at h; exact Except.noConfusion h
    | ok r =>
      rw [hx] at h
      cases r with
      | none =>
        rcases ih m0 m h k hk with h1 | ⟨l, hl, hid⟩
        · exact Or.inl h1
        · exact Or.inr ⟨l, by simp [hl], hid⟩
      | some p =>
        obtain ⟨id', g'⟩ := p
        rcases ih _ m h k hk with h1 | ⟨l, hl, hid⟩
        · rcases keys_insert m0 id' g' k h1 with h2 | h2
          · refine Or.inr ⟨x, by simp, ?_⟩
            unfold lineId
            rw [hx, h2]
          · exact Or.inl h2
        · exact Or.inr ⟨l, by simp [hl], hid⟩

/-! ### Lemmas about the dictionary encoder -/

theorem writeSlot_nonneg {E : Type} (d : Dict E) (id : Int) (e : E) (h0 : 0 ≤ id)
    (h2 : id < 250) :
    writeSlot d id e = .ok (updateFin d ⟨id.toNat, by omega⟩ e) := by
  unfold writeSlot
  rw [dif_pos ⟨h0, h2⟩]

theorem writeSlot_negidx {E : Type} (d : Dict E) (id : Int) (e : E) (h1 : -250 ≤ id)
    (h2 : id < 0) :
    writeSlot d id e = .ok (updateFin d ⟨(id + 250).toNat, by omega⟩ e) := by
  unfold writeSlot
  rw [dif_neg (by omega), dif_pos ⟨h1, h2⟩]

theorem writeSlot_err {E : Type} (d : Dict E) (id : Int) (e : E) (h : id < -250) :
    writeSlot d id e = .error .indexError := by
  unfold writeSlot
  rw [dif_neg (by omega), dif_neg (by omega)]

theorem createAux_cons {E : Type} (pack : BitMatrix → E) (d : Dict E) (id : Int)
    (g : Grid) (rest : MarkerSet) :
    createAux pack d ((id, g) :: rest) =
      if id < 250 then
        match writeSlot d id (pack (innerMarkerBin g)) with
        | .error e => .error e
        | .ok d' => createAux pack d' rest
      else createAux pack d rest := rfl

theorem find?_key_of_mem_nodup (m : MarkerSet) :
    ∀ id g, nodupKeys m → (id, g) ∈ m →
    m.find? (fun p => p.1 == id) = some (id, g) := by
  induction m with
  | nil => intro id g _ hm; simp at hm
  | cons p rest ih =>
    intro id g hnd hm
    unfold nodupKeys at hnd
    simp only [List.map_cons, List.nodup_cons] at hnd
    rcases List.mem_cons.mp hm with he | hm'
    · subst he
      simp [List.find?_cons]
    · have hid : id ∈ rest.map Prod.fst := List.mem_map.mpr ⟨(id, g), hm', rfl⟩
      have hne : (p.1 == id) = false := by
        simp only [beq_eq_false_iff_ne]
        intro he
        rw [he] at hnd
        exact hnd.1 hid
      simp only [List.find?_cons, hne]
      exact ih id g hnd.2 hm'

theorem createAux_slots {E : Type} (pack : BitMatrix → E) (m : MarkerSet) :
    nodupKeys m → (∀ p ∈ m, 0 ≤ p.1) →
    ∀ d0 : Dict E, ∃ d, createAux pack d0 m = .ok d ∧
      ∀ k : Fin 250, d k =
        match dictGet m (k.val : Int) with
        | some g => pack (innerMarkerBin g)
        | none => d0 k := by
  induction m with
  | nil =>
    intro _ _ d0
    exact ⟨d0, rfl, fun k => rfl⟩
  | cons p rest ih =>
    obtain ⟨id, g⟩ := p
    intro hnd hnn d0
    have hid0 : 0 ≤ id := hnn (id, g) (by simp)
    unfold nodupKeys at hnd
    simp only [List.map_cons, List.nodup_cons] at hnd
    have hnd' : nodupKeys rest := hnd.2
    have hid_not : id ∉ rest.map Prod.fst := hnd.1
    rw [createAux_cons]
    by_cases h250 : id < 250
    · rw [if_pos h250, writeSlot_nonneg d0 id _ hid0 h250]
      obtain ⟨d, hd, hk⟩ := ih hnd' (fun q hq => hnn q (by simp [hq]))
        (updateFin d0 ⟨id.toNat, by omega⟩ (pack (innerMarkerBin g)))
      refine ⟨d, hd, fun k => ?_⟩
      rw [hk k]
      by_cases hkid : (k.val : Int) = id
      · have hfind_rest : rest.find? (fun p => p.1 == (k.val : Int)) = none := by
          apply List.find?_eq_none.mpr
          intro q hq
          simp only [beq_iff_eq]
          intro he
          exact hid_not (List.mem_map.mpr ⟨q, hq, he.trans hkid⟩)
        have hnone : dictGet rest (k.val : Int) = none := by
          unfold dictGet
          rw [hfind_rest]
          rfl
        have hsome : dictGet ((id, g) :: rest) (k.val : Int) = some g := by
          unfold dictGet
          have hpeq : (((id, g) : Int × Grid).1 == (k.val : Int)) = true := by
            simp only [beq_iff_eq]
            exact hkid.symm
          simp only [List.find?_cons, hpeq]
          rfl
        rw [hnone, hsome]
        unfold updateFin
        rw [if_pos (show k = ⟨id.toNat, by omega⟩ from
          Fin.ext (show k.val = id.toNat by omega))]
      · have hcons : dictGet ((id, g) :: rest) (k.val : Int)
            = dictGet rest (k.val : Int) := by
          unfold dictGet
          have hpeq : (((id, g) : Int × Grid).1 == (k.val : Int)) = false := by
            simp only [beq_eq_false_iff_ne]
            exact fun he => hkid he.symm
          simp only [List.find?_cons, hpeq]
        rw [hcons]
        cases hfind : dictGet rest (k.val : Int) with
        | some g' => rfl
        | none =>
          unfold updateFin
          rw [if_neg]
          intro he
          have hv : k.val = id.toNat := congrArg Fin.val he
          exact hkid (by omega)
    · rw [if_neg h250]
      obtain ⟨d, hd, hk⟩ := ih hnd' (fun q hq => hnn q (by simp [hq])) d0
      refine ⟨d, hd, fun k => ?_⟩
      rw [hk k]
      have hcons : dictGet ((id, g) :: rest) (k.val : Int)
          = dictGet rest (k.val : Int) := by
        unfold dictGet
        have hpeq : (((id, g) : Int × Grid).1 == (k.val : Int)) = false := by
          simp only [beq_eq_false_iff_ne]
          intro he
          have hk250 : (k.val : Int) < 250 := by
            have := k.isLt
            omega
          omega
        simp only [List.find?_cons, hpeq]
      rw [hcons]

/-! ### Lemmas about single lines and token splitting -/

theorem splitWsAux_ne_nil (s : List Char) :
    ∀ acc t, t ∈ splitWsAux acc s → t ≠ [] := by
  induction s with
  | nil =>
    intro acc t ht
    unfold splitWsAux at ht
    by_cases ha : acc = []
    · rw [if_pos ha] at ht
      simp at ht
    · rw [if_neg ha] at ht
      simp only [List.mem_singleton] at ht
      rw [ht]
      simpa using ha
  | cons c rest ih =>
    intro acc t ht
    unfold splitWsAux at ht
    by_cases hsp : isPySpace c = true
    · rw [if_pos hsp] at ht
      by_cases ha : acc = []
      · rw [if_pos ha] at ht
        exact ih [] t ht
      · rw [if_neg ha] at ht
        rcases List.mem_cons.mp ht with he | hm
        · rw [he]
          simpa using ha
        · exact ih [] t hm
    · rw [if_neg hsp] at ht
      exact ih (c :: acc) t ht

theorem pySplitWs_ne_nil (s : List Char) (t : List Char) (ht : t ∈ pySplitWs s) :
    t ≠ [] :=
  splitWsAux_ne_nil s [] t ht

theorem buildGrid_ok (rows : List (List Char)) (hlen : rows.length ≤ 8)
    (htok : ∀ t ∈ rows, t.length ≤ 8) : ∃ g, buildGrid rows = .ok g :=
  buildGridAux_ok rows zeroGrid 0 (by omega) htok

theorem buildGrid_err_long (rows : List (List Char))
    (h : ∃ t ∈ rows.take 8, 8 < t.length) : buildGrid rows = .error .indexError :=
  buildGridAux_err_long rows zeroGrid 0 h

theorem buildGrid_err_many (rows : List (List Char)) (hlen : 8 < rows.length)
    (htok : ∀ t ∈ rows, t ≠ []) : buildGrid rows = .error .indexError :=
  buildGridAux_err_many rows zeroGrid 0 (by omega) (by omega) htok

theorem buildGrid_not_value (rows : List (List Char)) :
    buildGrid rows ≠ .error .valueError :=
  buildGridAux_not_value rows zeroGrid 0

theorem lineStep_eq_of_split (line p0 p1 : List Char)
    (hc : ¬ startsWithHash line = true) (hs : pyStrip line ≠ [])
    (hsp : splitColonSpace (pyStrip line) = [p0, p1]) :
    lineStep line =
      match pyInt p0 with
      | none => .error .valueError
      | some id =>
        match buildGrid (pySplitWs p1) with
        | .error e => .error e
        | .ok g => .ok (some (id, g)) := by
  unfold lineStep
  rw [if_neg (by rintro (h | h); exact hc h; exact hs h), hsp]

theorem lineStep_skip_of_split (line : List Char)
    (h : (splitColonSpace (pyStrip line)).length ≠ 2) :
    lineStep line = .ok none := by
  unfold lineStep
  by_cases hcb : startsWithHash line = true ∨ pyStrip line = []
  · rw [if_pos hcb]
  · rw [if_neg hcb]
    cases hsp : splitColonSpace (pyStrip line) with
    | nil => rfl
    | cons a t =>
      cases t with
      | nil => rfl
      | cons b t2 =>
        cases t2 with
        | nil =>
          exact absurd
            (show (splitColonSpace (pyStrip line)).length = 2 by rw [hsp]; rfl) h
        | cons c t3 => rfl

theorem lineStep_not_index (line : List Char)
    (h : ∀ p0 p1, splitColonSpace (pyStrip line) = [p0, p1] →
      (pySplitWs p1).length ≤ 8 ∧ ∀ t ∈ pySplitWs p1, t.length ≤ 8) :
    lineStep line ≠ .error .indexError := by
  by_cases hcb : startsWithHash line = true ∨ pyStrip line = []
  · unfold lineStep
    rw [if_pos hcb]
    exact fun hh => Except.noConfusion hh
  · have hc : ¬ startsWithHash line = true := fun hh => hcb (Or.inl hh)
    have hs : pyStrip line ≠ [] := fun hh => hcb (Or.inr hh)
    cases hsp : splitColonSpace (pyStrip line) with
    | nil =>
      unfold lineStep
      rw [if_neg hcb, hsp]
      exact fun hh => Except.noConfusion hh
    | cons a t =>
      cases t with
      | nil =>
        unfold lineStep
        rw [if_neg hcb, hsp]
        exact fun hh => Except.noConfusion hh
      | cons b t2 =>
        cases t2 with
        | cons c t3 =>
          unfold lineStep
          rw [if_neg hcb, hsp]
          exact fun hh => Except.noConfusion hh
        | nil =>
          rw [lineStep_eq_of_split line a b hc hs hsp]
          obtain ⟨hl, htk⟩ := h a b hsp
          cases hpi : pyInt a with
          | none =>
            intro hh
            injection hh with hh
            exact PyErr.noConfusion hh
          | some id =>
            obtain ⟨g, hg⟩ := buildGrid_ok (pySplitWs b) hl htk
            rw [hg]
            exact fun hh => Except.noConfusion hh

/-! ### Claim theorems -/

/-- C1: for every marker with id in [0, 250) in the input MarkerSet, the
6×6 bit matrix passed to the dictionary packing primitive equals the inner
submatrix of the 8×8 grid at rows 1..6 and columns 1..6 (zero-indexed,
outer border removed), with each cell mapped to bit 0 when the source cell
equals the white intensity 255 and to bit 1 otherwise: the encoder's
`innerMarkerBin` coincides with the specification's `specEncodedBits`, and
the dictionary slot written for such a marker holds `pack` applied to
exactly that matrix. -/
theorem C1_encoding_bits :
    (∀ g : Grid, innerMarkerBin g = specEncodedBits g)
    ∧ (∀ (E : Type) (pack : BitMatrix → E) (base : Dict E) (m : MarkerSet)
        (id : Int) (g : Grid) (d : Dict E) (k : Fin 250),
        nodupKeys m → (∀ p ∈ m, 0 ≤ p.1) → (id, g) ∈ m → id < 250 →
        create_custom_dictionary pack base m = .ok d → (k.val : Int) = id →
        d k = pack (specEncodedBits g)) := by
  constructor
  · intro g
    rfl
  · intro E pack base m id g d k hnd hnn hm h250 hcd hk
    obtain ⟨d', hd', hslots⟩ := createAux_slots pack m hnd hnn base
    unfold create_custom_dictionary at hcd
    rw [hcd] at hd'
    injection hd' with hdd
    subst hdd
    have hs := hslots k
    have hfind : m.find? (fun p => p.1 == (k.val : Int)) = some (id, g) := by
      rw [show ((k.val : Nat) : Int) = id from hk]
      exact find?_key_of_mem_nodup m id g hnd hm
    have hget : dictGet m (k.val : Int) = some g := by
      unfold dictGet
      rw [hfind]
      rfl
    rw [hget] at hs
    rw [hs]
    rfl

/-- Witness for C1: a one-marker set with id 3 and the all-black grid,
packed by the identity packing into a dictionary of bit matrices. -/
theorem C1_encoding_bits_witness :
    dSlot3 ⟨3, by omega⟩ = specEncodedBits zeroGrid :=
  C1_encoding_bits.2 BitMatrix (fun bmat => bmat) baseBits [((3 : Int), zeroGrid)]
    3 zeroGrid dSlot3 ⟨3, by omega⟩ (by decide) (by decide) (by decide) (by decide)
    rfl (by decide)

/-- C2 counterexample: the claim fails for a MarkerSet containing the
negative id -1, which lies outside [0, 250): the encoder's guard
`marker_id < 250` admits it and the numpy write wraps around to slot 249,
so a slot whose index is not an id of the set loses the base content. -/
theorem C2_counterexample :
    (∃ d, create_custom_dictionary packOne baseZero [((-1 : Int), zeroGrid)] = .ok d
      ∧ d ⟨249, by omega⟩ ≠ baseZero ⟨249, by omega⟩)
    ∧ ((-1 : Int) < 0) := by
  refine ⟨⟨_, rfl, ?_⟩, by decide⟩
  decide

/-- C2 (amended): for every MarkerSet with pairwise-distinct, non-negative
ids, the dictionary returned by buildDictionary has exactly the slots whose
index is an id of the MarkerSet lying in [0, 250) overwritten with the
corresponding packed encoding, and every other slot holds the base
dictionary's original content; for the empty MarkerSet the returned
dictionary equals the unmodified base dictionary. -/
theorem C2_slots_characterization :
    (∀ (E : Type) (pack : BitMatrix → E) (base : Dict E) (m : MarkerSet),
      nodupKeys m → (∀ p ∈ m, 0 ≤ p.1) →
      ∃ d, create_custom_dictionary pack base m = .ok d ∧
        ∀ k : Fin 250, d k =
          match dictGet m (k.val : Int) with
          | some g => pack (innerMarkerBin g)
          | none => base k)
    ∧ (∀ (E : Type) (pack : BitMatrix → E) (base : Dict E),
      create_custom_dictionary pack base ([] : MarkerSet) = .ok base) := by
  constructor
  · intro E pack base m hnd hnn
    exact createAux_slots pack m hnd hnn base
  · intro E pack base
    rfl

/-- Witness for the amended C2: a one-marker set with id 5 and the empty
set, over the constant packing and all-zero base. -/
theorem C2_slots_characterization_witness :
    (∃ d, create_custom_dictionary packOne baseZero [((5 : Int), zeroGrid)] = .ok d ∧
      ∀ k : Fin 250, d k =
        match dictGet [((5 : Int), zeroGrid)] (k.val : Int) with
        | some g => packOne (innerMarkerBin g)
        | none => baseZero k)
    ∧ create_custom_dictionary packOne baseZero ([] : MarkerSet) = .ok baseZero :=
  ⟨C2_slots_characterization.1 Nat packOne baseZero [((5 : Int), zeroGrid)]
      (by decide) (by decide),
    C2_slots_characterization.2 Nat packOne baseZero⟩

/-- C4 counterexample: a marker with the negative id -2 lies outside
[0, 250) but is not skipped: the encoder writes slot 248 through numpy
negative indexing, so the dictionary differs from the base although no id
of the set lies in [0, 250). -/
theorem C4_counterexample :
    (∃ d, create_custom_dictionary packOne baseZero [((-2 : Int), zeroGrid)] = .ok d
      ∧ d ⟨248, by omega⟩ ≠ baseZero ⟨248, by omega⟩)
    ∧ ¬ (0 ≤ (-2 : Int)) := by
  refine ⟨⟨_, rfl, ?_⟩, by decide⟩
  decide

/-- C4 (amended): buildDictionary skips exactly the markers with id ≥ 250
(no error, nothing encoded); a marker with negative id is not skipped: for
-250 ≤ id < 0 the write lands at slot id + 250 (Python negative indexing),
and for id < -250 the build aborts with an IndexError. -/
theorem C4_skip_policy :
    ∀ (E : Type) (pack : BitMatrix → E) (base : Dict E) (id : Int) (g : Grid)
      (rest : MarkerSet),
      (250 ≤ id →
        create_custom_dictionary pack base ((id, g) :: rest)
          = create_custom_dictionary pack base rest)
      ∧ (∀ h1 : -250 ≤ id, ∀ h2 : id < 0,
        create_custom_dictionary pack base ((id, g) :: rest)
          = create_custom_dictionary pack
              (updateFin base ⟨(id + 250).toNat, by omega⟩ (pack (innerMarkerBin g)))
              rest)
      ∧ (id < -250 →
        create_custom_dictionary pack base ((id, g) :: rest) = .error .indexError) := by
  intro E pack base id g rest
  refine ⟨?_, ?_, ?_⟩
  · intro h
    unfold create_custom_dictionary
    rw [createAux_cons, if_neg (by omega)]
  · intro h1 h2
    unfold create_custom_dictionary
    rw [createAux_cons, if_pos (by omega), writeSlot_negidx base id _ h1 h2]
  · intro h
    unfold create_custom_dictionary
    rw [createAux_cons, if_pos (by omega), writeSlot_err base id _ h]

/-- Witness for the amended C4 at ids 300, -1 and -300. -/
theorem C4_skip_policy_witness :
    (create_custom_dictionary packOne baseZero [((300 : Int), zeroGrid)]
      = create_custom_dictionary packOne baseZero [])
    ∧ (create_custom_dictionary packOne baseZero [((-1 : Int), zeroGrid)]
      = create_custom_dictionary packOne
          (updateFin baseZero ⟨((-1 : Int) + 250).toNat, by decide⟩
            (packOne (innerMarkerBin zeroGrid))) [])
    ∧ (create_custom_dictionary packOne baseZero [((-300 : Int), zeroGrid)]
      = .error .indexError) :=
  ⟨(C4_skip_policy Nat packOne baseZero 300 zeroGrid []).1 (by decide),
    (C4_skip_policy Nat packOne baseZero (-1) zeroGrid []).2.1 (by decide) (by decide),
    (C4_skip_policy Nat packOne baseZero (-300) zeroGrid []).2.2 (by decide)⟩

/-- C3: a non-comment, non-blank line that splits on ': ' into exactly two
parts but whose first part is not a valid integer makes the whole parse
fail with a ValueError, whereas a line that does not split into exactly two
parts on ': ' is skipped and parsing continues, returning the markers of
the remaining lines. -/
theorem C3_malformed_id_vs_partcount :
    (∀ (pre post : List (List Char)) (line p0 p1 : List Char),
      (∀ l ∈ pre, ∃ r, lineStep l = .ok r) →
      ¬ startsWithHash line = true → pyStrip line ≠ [] →
      splitColonSpace (pyStrip line) = [p0, p1] → pyInt p0 = none →
      load_custom_markers (pre ++ (line :: post)) = .error .valueError)
    ∧ (∀ (pre post : List (List Char)) (line : List Char),
      (splitColonSpace (pyStrip line)).length ≠ 2 →
      load_custom_markers (pre ++ (line :: post))
        = load_custom_markers (pre ++ post)) := by
  constructor
  · intro pre post line p0 p1 hpre hc hs hsp hbad
    obtain ⟨m, hm⟩ := loadAux_ok pre [] hpre
    have e1 : loadAux [] (pre ++ (line :: post)) = loadAux m (line :: post) := by
      rw [loadAux_append, hm]
    have e2 : loadAux m (line :: post) = .error .valueError := by
      rw [loadAux_cons, processLine_eq, lineStep_eq_of_split line p0 p1 hc hs hsp, hbad]
    unfold load_custom_markers
    rw [e1, e2]
  · intro pre post line hlen
    have e2 : ∀ m, loadAux m (line :: post) = loadAux m post := by
      intro m
      rw [loadAux_cons, processLine_eq, lineStep_skip_of_split line hlen]
    unfold load_custom_markers
    rw [loadAux_append, loadAux_append]
    cases hpre : loadAux [] pre with
    | error e => rfl
    | ok m => exact e2 m

/-- Witness for C3: the line `abc: 0` aborts the parse with ValueError;
the colon-free line `24 00000000` after a valid line is skipped and the
parse returns the markers of the valid line alone. -/
theorem C3_malformed_id_vs_partcount_witness :
    load_custom_markers [lineAbc] = .error .valueError
    ∧ load_custom_markers [lineSeven, lineNoColon] = load_custom_markers [lineSeven] :=
  ⟨C3_malformed_id_vs_partcount.1 [] [] lineAbc tokAbc tokZero (by simp)
      (by decide) (by decide) (by decide) (by decide),
    C3_malformed_id_vs_partcount.2 [lineSeven] [] lineNoColon (by decide)⟩

/-- C10: a data line with a valid id whose second part splits into more
than 8 row tokens makes the parse abort (the grid write reaches row index
8 of the fixed 8×8 array) instead of soft-skipping the line: such a source
never parses successfully, and when no line has a malformed id the abort
is precisely an IndexError; conversely, when every data line has at most 8
row tokens of at most 8 characters each, the index-error branch of the
grid write is unreachable. -/
theorem C10_row_overflow :
    (∀ (lines : List (List Char)) (line p0 p1 : List Char) (id : Int),
      line ∈ lines → ¬ startsWithHash line = true → pyStrip line ≠ [] →
      splitColonSpace (pyStrip line) = [p0, p1] → pyInt p0 = some id →
      8 < (pySplitWs p1).length →
      (∀ m, load_custom_markers lines ≠ .ok m)
      ∧ ((∀ l ∈ lines, lineStep l ≠ .error .valueError) →
        load_custom_markers lines = .error .indexError))
    ∧ (∀ lines : List (List Char),
      (∀ l ∈ lines, ∀ p0 p1, splitColonSpace (pyStrip l) = [p0, p1] →
        (pySplitWs p1).length ≤ 8 ∧ ∀ t ∈ pySplitWs p1, t.length ≤ 8) →
      load_custom_markers lines ≠ .error .indexError) := by
  constructor
  · intro lines line p0 p1 id hmem hc hs hsp hpi hmany
    have hstep : lineStep line = .error .indexError := by
      rw [lineStep_eq_of_split line p0 p1 hc hs hsp, hpi,
        buildGrid_err_many (pySplitWs p1) hmany (fun t ht => pySplitWs_ne_nil p1 t ht)]
    constructor
    · intro m hok
      obtain ⟨r, hr⟩ := loadAux_ok_source lines [] m hok line hmem
      rw [hstep] at hr
      exact Except.noConfusion hr
    · intro hnv
      exact loadAux_err_of_mem lines [] line hmem hstep hnv
  · intro lines hcond hload
    obtain ⟨l, hl, hstep⟩ := loadAux_err_source lines [] .indexError hload
    exact lineStep_not_index l (hcond l hl) hstep

/-- Witness for C10: the nine-token line `1: 0 0 0 0 0 0 0 0 0` makes the
parse fail with IndexError, while the well-formed single-token line
`7: 0` can never produce an IndexError. -/
theorem C10_row_overflow_witness :
    (∀ m, load_custom_markers [lineNine] ≠ .ok m)
    ∧ load_custom_markers [lineNine] = .error .indexError
    ∧ load_custom_markers [lineSeven] ≠ .error .indexError := by
  refine ⟨(C10_row_overflow.1 [lineNine] lineNine tokOne p1Nine 1 (by decide)
      (by decide) (by decide) (by decide) (by decide) (by decide)).1,
    (C10_row_overflow.1 [lineNine] lineNine tokOne p1Nine 1 (by decide)
      (by decide) (by decide) (by decide) (by decide) (by decide)).2 (by decide),
    C10_row_overflow.2 [lineSeven] ?_⟩
  intro l hl p0 p1 hsp
  simp only [List.mem_singleton] at hl
  subst hl
  have hval : splitColonSpace (pyStrip lineSeven) = [['7'], ['0']] := by decide
  rw [hval] at hsp
  injection hsp with ha hb
  injection hb with hb1 hb2
  subst ha
  subst hb1
  decide

/-- C5 counterexample: for the line `5: 0000` the single row token has
length 4, and cell (0, 4) of the parsed grid — a cell beyond the token's
length — holds 0, the black intensity (the `np.zeros` default), not the
white intensity 255 as the claim states. -/
theorem C5_counterexample :
    cellAt (load_custom_markers [lineShort]) 5 ⟨0, by omega⟩ ⟨4, by omega⟩ = some 0
    ∧ (0 : Nat) ≠ 255 :=
  ⟨by decide, by decide⟩

/-- C5 (amended): in the grid built from the row tokens of a data line,
every cell at a column index at or beyond its row token's length (and
every cell of a row with no token) holds 0 — the black intensity, the
default-initialized `np.zeros` value — not the white intensity. -/
theorem C5_default_cells :
    ∀ (rows : List (List Char)) (g : Grid), buildGrid rows = .ok g →
    ∀ i j : Fin 8, (rows.getD i.val []).length ≤ j.val → g i j = 0 := by
  intro rows g h i j hlen
  rw [buildGrid_cell rows g h i j, if_neg]
  rintro ⟨-, h2⟩
  omega

/-- Witness for the amended C5: the grid of the single 4-character token
`0000` has cell (0, 5) equal to 0. -/
theorem C5_default_cells_witness :
    gC5 ⟨0, by omega⟩ ⟨5, by omega⟩ = 0 :=
  C5_default_cells [tok4] gC5 (by decide) ⟨0, by omega⟩ ⟨5, by omega⟩ (by decide)

/-- C6 counterexample: the line `0: 000000000` carries a 9-character row
token and aborts the whole parse with an IndexError — the later
well-formed line `7: 0` is not returned — contradicting the claim that a
wrong-length row token never aborts the batch. -/
theorem C6_counterexample :
    load_custom_markers [lineLong, lineSeven] = .error .indexError := by decide

/-- C6 (amended): a data line whose row tokens are at most 8 (in number)
and each at most 8 characters long never aborts the grid construction
(shorter tokens are tolerated), but a row token longer than 8 characters
among the first 8 tokens aborts the parse with an IndexError. -/
theorem C6_token_length :
    (∀ rows : List (List Char), rows.length ≤ 8 → (∀ t ∈ rows, t.length ≤ 8) →
      ∃ g, buildGrid rows = .ok g)
    ∧ (∀ rows : List (List Char), (∃ t ∈ rows.take 8, 8 < t.length) →
      buildGrid rows = .error .indexError) :=
  ⟨fun rows h1 h2 => buildGrid_ok rows h1 h2,
    fun rows h => buildGrid_err_long rows h⟩

/-- Witness for the amended C6: one 8-character token succeeds, one
9-character token aborts with IndexError. -/
theorem C6_token_length_witness :
    (∃ g, buildGrid [tok8] = .ok g) ∧ buildGrid [tok9] = .error .indexError :=
  ⟨C6_token_length.1 [tok8] (by decide) (by decide),
    C6_token_length.2 [tok9] (by decide)⟩

/-- C7 counterexample: the parse succeeds on the line `-1: 0` and the
returned MarkerSet has the negative key -1, so not every key of a
returned MarkerSet is a non-negative integer. -/
theorem C7_counterexample :
    keysOf (load_custom_markers [lineNeg]) = [-1] ∧ ((-1 : Int) < 0) :=
  ⟨by decide, by decide⟩

/-- C7 (amended): every key of a successfully returned MarkerSet is an
integer parsed by Python int() from the id field of some data line of the
source; such ids may be negative, so non-negativity is not guaranteed. -/
theorem C7_keys_from_ids :
    ∀ (lines : List (List Char)) (m : MarkerSet),
      load_custom_markers lines = .ok m →
      ∀ k ∈ m.map Prod.fst, ∃ l ∈ lines, lineId l = some k := by
  intro lines m h k hk
  rcases loadAux_keys lines [] m h k hk with h1 | h2
  · simp at h1
  · exact h2

/-- Witness for the amended C7: the key 7 of the set parsed from `7: 0`
comes from that line's id field. -/
theorem C7_keys_from_ids_witness :
    ∃ l ∈ [lineSeven], lineId l = some 7 :=
  C7_keys_from_ids [lineSeven] mSeven (by decide) 7 (by decide)

/-- C8: for a source containing two data lines with the same id and
different grids, the returned MarkerSet maps that id to the grid of the
later line only (last-write-wins), and the duplicate raises no error:
provided every other line of the source processes without error and no
line after the second occurrence redefines the id, the parse succeeds and
lookup of the id returns the later grid. -/
theorem C8_last_write_wins :
    ∀ (pre mid post : List (List Char)) (l1 l2 : List Char) (id : Int)
      (g1 g2 : Grid),
      lineStep l1 = .ok (some (id, g1)) → lineStep l2 = .ok (some (id, g2)) →
      g1 ≠ g2 →
      (∀ l ∈ pre, ∃ r, lineStep l = .ok r) →
      (∀ l ∈ mid, ∃ r, lineStep l = .ok r) →
      (∀ l ∈ post, ∃ r, lineStep l = .ok r) →
      (∀ l ∈ post, ∀ g, lineStep l ≠ .ok (some (id, g))) →
      ∃ m, load_custom_markers (pre ++ (l1 :: (mid ++ (l2 :: post)))) = .ok m
        ∧ dictGet m id = some g2 := by
  intro pre mid post l1 l2 id g1 g2 h1 h2 hne hpre hmid hpost hfroz
  obtain ⟨mA, hmA⟩ := loadAux_ok pre [] hpre
  obtain ⟨mB, hmB⟩ := loadAux_ok mid (dictInsert mA id g1) hmid
  obtain ⟨mC, hmC⟩ := loadAux_ok post (dictInsert mB id g2) hpost
  have e1 : loadAux [] (pre ++ (l1 :: (mid ++ (l2 :: post))))
      = loadAux mA (l1 :: (mid ++ (l2 :: post))) := by
    rw [loadAux_append, hmA]
  have e2 : loadAux mA (l1 :: (mid ++ (l2 :: post)))
      = loadAux (dictInsert mA id g1) (mid ++ (l2 :: post)) := by
    rw [loadAux_cons, processLine_eq, h1]
  have e3 : loadAux (dictInsert mA id g1) (mid ++ (l2 :: post))
      = loadAux mB (l2 :: post) := by
    rw [loadAux_append, hmB]
  have e4 : loadAux mB (l2 :: post) = loadAux (dictInsert mB id g2) post := by
    rw [loadAux_cons, processLine_eq, h2]
  refine ⟨mC, ?_, ?_⟩
  · unfold load_custom_markers
    rw [e1, e2, e3, e4, hmC]
  · rw [loadAux_get_frozen post (dictInsert mB id g2) mC id hmC hfroz,
      dictGet_insert_same mB id g2]

/-- Witness for C8: the duplicate-id lines `1: 0` and `1: 00` yield
different grids; the parsed set maps 1 to the later grid. -/
theorem C8_last_write_wins_witness :
    ∃ m, load_custom_markers [lineA1, lineB1] = .ok m ∧ dictGet m 1 = some gTwo :=
  C8_last_write_wins [] [] [] lineA1 lineB1 1 gOne gTwo (by decide) (by decide)
    (by decide) (by simp) (by simp) (by simp) (by simp)

/-- C9: for every valid data line — whose second part whitespace-splits
into exactly 8 row tokens of exactly 8 characters each, drawn from '0'
(white) and '1' (black) — building the grid succeeds and re-serializing
the grid, writing '0' for a white cell and '1' for a black cell,
reproduces the original row tokens (round-trip identity). -/
theorem C9_roundtrip :
    ∀ (p1 : List Char) (rows : List (List Char)),
      rows = pySplitWs p1 → rows.length = 8 →
      (∀ t ∈ rows, t.length = 8) →
      (∀ t ∈ rows, ∀ c ∈ t, c = '0' ∨ c = '1') →
      ∃ g, buildGrid rows = .ok g ∧ serializeGrid g = rows := by
  intro p1 rows hsplit hlen htok hchar
  obtain ⟨g, hg⟩ := buildGrid_ok rows (by omega) (fun t ht => le_of_eq (htok t ht))
  refine ⟨g, hg, ?_⟩
  apply List.ext_getElem
  · simp [serializeGrid, hlen]
  · intro i hi1 hi2
    have hi8 : i < 8 := by omega
    have hrowlen : (rows[i]).length = 8 := htok (rows[i]) (List.getElem_mem hi2)
    unfold serializeGrid
    rw [List.getElem_ofFn]
    apply List.ext_getElem
    · simp [hrowlen]
    · intro j hj1 hj2
      have hj8 : j < 8 := by omega
      rw [List.getElem_ofFn]
      have hcell := buildGrid_cell rows g hg ⟨i, hi8⟩ ⟨j, hj8⟩
      rw [List.getD_eq_getElem rows [] (by omega : i < rows.length)] at hcell
      rw [List.getD_eq_getElem (rows[i]) 'A' (by omega : j < (rows[i]).length)] at hcell
      rw [if_pos (show i < rows.length ∧ j < (rows[i]).length from ⟨by omega, by omega⟩)]
        at hcell
      rcases hchar (rows[i]) (List.getElem_mem hi2) ((rows[i])[j])
          (List.getElem_mem hj2) with h0 | h1
      · rw [hcell, h0]
        decide
      · rw [hcell, h1]
        decide

/-- Witness for C9: eight all-zero row tokens round-trip through the grid
build and re-serialization. -/
theorem C9_roundtrip_witness :
    ∃ g, buildGrid rows8 = .ok g ∧ serializeGrid g = rows8 :=
  C9_roundtrip p1Eight rows8 (by decide) (by decide) (by decide) (by decide)

end MarkerScanner
